import Mathlib

/-!
Shallow embedding of the cellular-automaton engine in `soluautomaatti.py`
(class `GameBoard`, plus the `read_board` / `save_board` helpers), together
with theorems settling the specification claims about it.

The Python board `self.board` is a rectangular numpy array indexed
`board[y, x]` (row `y`, column `x`); cells hold the numbers 0 (dead) and
1 (alive).  We model it as a list of rows of integers.
-/

/-- A cell value.  The Python code stores numpy numbers and tests them against
0 and 1; we model the values as integers. -/
abbrev Cell := Int

/-- The board array `self.board`: a list of rows, so that entry `x` of row `y`
is the Python `self.board[y, x]`. -/
abbrev Grid := List (List Cell)

/-- Reading `self.board[y, x]` at natural-number indices (out-of-range reads,
which the Python code never performs on the claims' inputs, default to 0). -/
def cellAt (g : Grid) (x y : Nat) : Cell := (g.getD y []).getD x 0

/-- Reading `self.board[y, x]` with integer indices; every use in this
development is at nonnegative, in-range indices, matching the Python code. -/
def idxCell (g : Grid) (x y : Int) : Cell := cellAt g x.toNat y.toNat

/-- The x-dimension `len(self.board[0])`, the first entry of `get_size`. -/
def width (g : Grid) : Nat := (g.getD 0 []).length

/-- The y-dimension `len(self.board)`, the second entry of `get_size`. -/
def height (g : Grid) : Nat := g.length

/-- `GameBoard.get_size`: returns `[len(self.board[0]), len(self.board)]`. -/
def get_size (g : Grid) : List Nat := [width g, height g]

/-- Bounded unfolding of the loop `while x < 0: x += len` from
`shift_positions`.  The fuel argument bounds the number of iterations. -/
def whileAddAux (len : Int) : Nat → Int → Int
  | 0, x => x
  | n + 1, x => if x < 0 then whileAddAux len n (x + len) else x

/-- The loop `while x < 0: x += x_len` from `shift_positions`.  For
`1 ≤ len` the fuel `(-x).toNat` always suffices (each iteration increases `x`
by at least 1), so this equals the Python loop; for `len ≤ 0` the Python loop
never terminates and the claims assume positive dimensions. -/
def whileAdd (len x : Int) : Int := whileAddAux len (-x).toNat x

/-- Bounded unfolding of the loop `while x >= len: x -= len`. -/
def whileSubAux (len : Int) : Nat → Int → Int
  | 0, x => x
  | n + 1, x => if len ≤ x then whileSubAux len n (x - len) else x

/-- The loop `while x >= x_len: x -= x_len` from `shift_positions`; the fuel
`x.toNat` suffices whenever `1 ≤ len`. -/
def whileSub (len x : Int) : Int := whileSubAux len x.toNat x

/-- `GameBoard.shift_positions`: shifts `x` into `[0, x_len)` and `y` into
`[0, y_len)` by repeatedly adding / subtracting the board dimensions. -/
def shift_positions (g : Grid) (x y : Int) : Int × Int :=
  (whileSub (width g) (whileAdd (width g) x),
   whileSub (height g) (whileAdd (height g) y))

/-- `GameBoard.get_neighbors`: sums, over the 3×3 block `i ∈ {x-1,x,x+1}`,
`j ∈ {y-1,y,y+1}`, the aliveness of the cell at the shifted position, then
subtracts 1 if the centre cell itself is alive. -/
def get_neighbors (g : Grid) (x y : Int) : Int :=
  let contrib : Int × Int → Int := fun p =>
    if idxCell g p.1 p.2 = 1 then 1 else 0
  let n : Int :=
    ([x - 1, x, x + 1].map (fun i =>
      ([y - 1, y, y + 1].map (fun j => contrib (shift_positions g i j))).sum)).sum
  n - (if idxCell g x y = 1 then 1 else 0)

/-- `GameBoard.update_cell`: if the cell is 0 it becomes 1 exactly when it has
3 alive neighbours; otherwise it becomes 0 when it has fewer than 2 or more
than 3 alive neighbours; in all remaining cases `self.board[y, x]` is
returned unchanged. -/
def update_cell (g : Grid) (x y : Int) : Cell :=
  let n_neighbors := get_neighbors g x y
  if idxCell g x y = 0 then
    (if n_neighbors = 3 then 1 else idxCell g x y)
  else
    (if n_neighbors < 2 ∨ n_neighbors > 3 then 0 else idxCell g x y)

/-- The assignment `temp_board[y, x] = v` on a list-of-rows grid. -/
def setCell (g : Grid) (x y : Nat) (v : Cell) : Grid :=
  g.set y ((g.getD y []).set x v)

/-- The grid produced by one `GameBoard.tick`: a temp board starts as a copy
of `self.board`, every cell `(x, y)` of it is assigned
`update_cell(x, y)` (which reads the untouched pre-tick grid `g`), and the
result replaces the live grid. -/
def tickGrid (g : Grid) : Grid :=
  (List.range (height g)).foldl
    (fun t y => (List.range (width g)).foldl
      (fun t x => setCell t x y (update_cell g (x : Int) (y : Int))) t)
    g

/-- `GameBoard.make_random_board`: an array of zeros of shape
`(size[0], size[1])` in which cell `(row, col)` is set to 1 when the drawn
random number is at most the spawn chance 0.2.  The random draws of
`rng.random()` are modelled by the stream `r`, indexed by `(row, col)`, and
the spawn chance by the rational 1/5; the claims depend only on the produced
shape and on the cells lying in {0, 1}, not on the comparison itself. -/
def make_random_board (r : Nat → Nat → ℚ) (size0 size1 : Nat) : Grid :=
  (List.range size0).map (fun row =>
    (List.range size1).map (fun col => if r row col ≤ 1 / 5 then (1 : Cell) else 0))

/-- The mutable state of a `GameBoard` object: the live grid `self.board`,
the construction-time copy `self.initial_board`, and `self.history`. -/
structure GameBoard where
  board : Grid
  initial_board : Grid
  history : List Grid

/-- `GameBoard.__init__(size, board)`: `history` starts empty; the live grid
is the supplied board when one is given and otherwise a random board of the
given size; `initial_board` is a copy of the live grid.  `size0` and `size1`
are the entries `size[0]` and `size[1]` of the Python size list. -/
def mkGameBoard (r : Nat → Nat → ℚ) (size0 size1 : Nat) (board? : Option Grid) :
    GameBoard :=
  let b := match board? with
    | some b0 => b0
    | none => make_random_board r size0 size1
  { board := b, initial_board := b, history := [] }

/-- `GameBoard.tick`: appends a copy of the live grid to `history`, then
replaces the live grid with the fully recomputed temp board. -/
def tick (b : GameBoard) : GameBoard :=
  { board := tickGrid b.board
    initial_board := b.initial_board
    history := b.history ++ [b.board] }

/-- `k` successive calls to `tick`. -/
def tickN : Nat → GameBoard → GameBoard
  | 0, b => b
  | k + 1, b => tickN k (tick b)

/-- `GameBoard.get_board`. -/
def get_board (b : GameBoard) : Grid := b.board

/-- `GameBoard.get_initial_board`. -/
def get_initial_board (b : GameBoard) : Grid := b.initial_board

/-- Every cell of the grid is 0 or 1. -/
def BinaryGrid (g : Grid) : Prop := ∀ row ∈ g, ∀ c ∈ row, c = 0 ∨ c = 1

instance (g : Grid) : Decidable (BinaryGrid g) :=
  inferInstanceAs (Decidable (∀ row ∈ g, ∀ c ∈ row, c = 0 ∨ c = 1))

/-- Every row has the length of row 0, as is automatic for a 2-d numpy
array. -/
def Rect (g : Grid) : Prop := ∀ row ∈ g, row.length = width g

instance (g : Grid) : Decidable (Rect g) :=
  inferInstanceAs (Decidable (∀ row ∈ g, row.length = width g))

/-! ### Lemmas about the normalization loops -/

theorem whileAddAux_spec (len : Int) (hl : 0 < len) :
    ∀ (fuel : Nat) (x : Int), (-x).toNat ≤ fuel →
      0 ≤ whileAddAux len fuel x ∧ whileAddAux len fuel x % len = x % len := by
  intro fuel
  induction fuel with
  | zero =>
    intro x hx
    have : 0 ≤ x := by omega
    simp [whileAddAux, this]
  | succ n ih =>
    intro x hx
    by_cases h : x < 0
    · have hfuel : (-(x + len)).toNat ≤ n := by omega
      have := ih (x + len) hfuel
      have hmod : (x + len) % len = x % len := by
        have : x + len = x + len * 1 := by ring
        rw [this, Int.add_mul_emod_self_left]
      simpa [whileAddAux, h, hmod] using this
    · simp [whileAddAux, h]
      omega

theorem whileSubAux_spec (len : Int) (hl : 0 < len) :
    ∀ (fuel : Nat) (x : Int), 0 ≤ x → x.toNat ≤ fuel →
      0 ≤ whileSubAux len fuel x ∧ whileSubAux len fuel x < len ∧
        whileSubAux len fuel x % len = x % len := by
  intro fuel
  induction fuel with
  | zero =>
    intro x hx hfx
    have : x = 0 := by omega
    subst this
    simp [whileSubAux]
    omega
  | succ n ih =>
    intro x hx hfx
    by_cases h : len ≤ x
    · have hx' : 0 ≤ x - len := by omega
      have hfuel : (x - len).toNat ≤ n := by omega
      have := ih (x - len) hx' hfuel
      have hmod : (x - len) % len = x % len := by
        have : x - len = x + len * (-1) := by ring
        rw [this, Int.add_mul_emod_self_left]
      simpa [whileSubAux, h, hmod] using this
    · simp [whileSubAux, h]
      omega

theorem whileAdd_spec (len x : Int) (hl : 0 < len) :
    0 ≤ whileAdd len x ∧ whileAdd len x % len = x % len :=
  whileAddAux_spec len hl _ x (Nat.le_refl _)

theorem whileSub_spec (len x : Int) (hl : 0 < len) (hx : 0 ≤ x) :
    0 ≤ whileSub len x ∧ whileSub len x < len ∧ whileSub len x % len = x % len :=
  whileSubAux_spec len hl _ x hx (Nat.le_refl _)

/-- The composition of the two loops computes the always-non-negative
remainder modulo `len`. -/
theorem whileSub_whileAdd_eq_emod (len x : Int) (hl : 0 < len) :
    whileSub len (whileAdd len x) = x % len := by
  obtain ⟨ha0, hamod⟩ := whileAdd_spec len x hl
  obtain ⟨hs0, hslt, hsmod⟩ := whileSub_spec len (whileAdd len x) hl ha0
  have : whileSub len (whileAdd len x) % len = whileSub len (whileAdd len x) :=
    Int.emod_eq_of_lt hs0 hslt
  rw [← this, hsmod, hamod]

/-- C4: for a board with positive width and height, `shift_positions`
terminates on every pair of integers and returns exactly the
always-non-negative remainders of `x` and `y` modulo the width and the
height, which lie in `[0, width)` and `[0, height)`. -/
theorem shift_positions_eq_emod (g : Grid) (x y : Int)
    (hw : 1 ≤ width g) (hh : 1 ≤ height g) :
    shift_positions g x y = (x % (width g : Int), y % (height g : Int)) ∧
      0 ≤ x % (width g : Int) ∧ x % (width g : Int) < (width g : Int) ∧
      0 ≤ y % (height g : Int) ∧ y % (height g : Int) < (height g : Int) := by
  have hw' : (0 : Int) < (width g : Int) := by exact_mod_cast hw
  have hh' : (0 : Int) < (height g : Int) := by exact_mod_cast hh
  refine ⟨?_, Int.emod_nonneg x (by omega), Int.emod_lt_of_pos x hw',
    Int.emod_nonneg y (by omega), Int.emod_lt_of_pos y hh'⟩
  unfold shift_positions
  rw [whileSub_whileAdd_eq_emod _ _ hw', whileSub_whileAdd_eq_emod _ _ hh']

/-- Witness for C4 at a concrete board and out-of-range coordinates. -/
theorem shift_positions_eq_emod_witness :
    shift_positions [[0, 0, 0], [0, 0, 0]] (-7) 100 =
        ((-7 : Int) % 3, (100 : Int) % 2) ∧
      0 ≤ (-7 : Int) % 3 ∧ (-7 : Int) % 3 < 3 ∧
      0 ≤ (100 : Int) % 2 ∧ (100 : Int) % 2 < 2 := by
  have h := shift_positions_eq_emod [[0, 0, 0], [0, 0, 0]] (-7) 100
    (by decide) (by decide)
  simpa [width, height] using h

/-- On in-range coordinates `shift_positions` is the identity. -/
theorem shift_positions_id (g : Grid) (x y : Int)
    (hx0 : 0 ≤ x) (hxw : x < (width g : Int))
    (hy0 : 0 ≤ y) (hyh : y < (height g : Int)) :
    shift_positions g x y = (x, y) := by
  have hw : 1 ≤ width g := by omega
  have hh : 1 ≤ height g := by omega
  obtain ⟨heq, -⟩ := shift_positions_eq_emod g x y hw hh
  rw [heq, Int.emod_eq_of_lt hx0 hxw, Int.emod_eq_of_lt hy0 hyh]

/-- Modelled from the spec: the number of alive cells among the 8 Moore
neighbourhood positions of `(x, y)` — the 3×3 block minus the centre — each
position normalized by the toroidal wrap-around `shift_positions`. -/
def mooreAliveCount (g : Grid) (x y : Int) : Int :=
  ([(x - 1, y - 1), (x - 1, y), (x - 1, y + 1),
    (x, y - 1), (x, y + 1),
    (x + 1, y - 1), (x + 1, y), (x + 1, y + 1)].map
    (fun p : Int × Int =>
      if idxCell g (shift_positions g p.1 p.2).1 (shift_positions g p.1 p.2).2 = 1
      then (1 : Int) else 0)).sum

/-- C3: on a binary board, at any in-range coordinate, `get_neighbors`
returns exactly the number of alive cells among the 8 toroidally normalized
Moore-neighbourhood positions, the centre cell never being counted; edge and
corner cells go through the very same wrap-around formula as interior
cells. -/
theorem get_neighbors_eq_mooreAliveCount (g : Grid) (x y : Int)
    (_hbin : BinaryGrid g)
    (hx0 : 0 ≤ x) (hxw : x < (width g : Int))
    (hy0 : 0 ≤ y) (hyh : y < (height g : Int)) :
    get_neighbors g x y = mooreAliveCount g x y := by
  have hid : shift_positions g x y = (x, y) := shift_positions_id g x y hx0 hxw hy0 hyh
  simp only [get_neighbors, mooreAliveCount, List.map_cons, List.map_nil,
    List.sum_cons, List.sum_nil, hid]
  ring

/-- Witness for C3: the centre cell of a concrete 3×3 board. -/
theorem get_neighbors_eq_mooreAliveCount_witness :
    get_neighbors [[0, 1, 0], [1, 1, 1], [0, 0, 0]] 1 1 =
      mooreAliveCount [[0, 1, 0], [1, 1, 1], [0, 0, 0]] 1 1 :=
  get_neighbors_eq_mooreAliveCount [[0, 1, 0], [1, 1, 1], [0, 0, 0]] 1 1
    (by decide) (by decide) (by decide) (by decide) (by decide)

/-! ### The update rule (C2) -/

theorem binary_getD {l : List Cell} (h : ∀ c ∈ l, c = 0 ∨ c = 1) (i : Nat) :
    l.getD i 0 = 0 ∨ l.getD i 0 = 1 := by
  by_cases hi : i < l.length
  · rw [List.getD_eq_getElem?_getD, List.getElem?_eq_getElem hi]
    exact h _ (List.getElem_mem hi)
  · rw [List.getD_eq_getElem?_getD, List.getElem?_eq_none (by omega)]
    exact Or.inl rfl

/-- On a binary board every read returns 0 or 1. -/
theorem binary_idxCell {g : Grid} (hbin : BinaryGrid g) (x y : Int) :
    idxCell g x y = 0 ∨ idxCell g x y = 1 := by
  unfold idxCell cellAt
  by_cases hy : y.toNat < g.length
  · refine binary_getD ?_ x.toNat
    have : g.getD y.toNat [] = g[y.toNat] := by
      rw [List.getD_eq_getElem?_getD, List.getElem?_eq_getElem hy]
      rfl
    rw [this]
    exact hbin _ (List.getElem_mem hy)
  · rw [List.getD_eq_getElem?_getD (l := g), List.getElem?_eq_none (by omega)]
    exact Or.inl rfl

/-- C2: on a binary board at an in-range coordinate, `update_cell` implements
the B3/S23 rule: an alive cell yields 1 exactly when its neighbour count is
2 or 3, and a dead cell yields 1 exactly when its neighbour count is 3. -/
theorem update_cell_B3S23 (g : Grid) (x y : Int) (hbin : BinaryGrid g)
    (_hx0 : 0 ≤ x) (_hxw : x < (width g : Int))
    (_hy0 : 0 ≤ y) (_hyh : y < (height g : Int)) :
    update_cell g x y =
      if idxCell g x y = 1 then
        (if get_neighbors g x y = 2 ∨ get_neighbors g x y = 3 then 1 else 0)
      else
        (if get_neighbors g x y = 3 then 1 else 0) := by
  rcases binary_idxCell hbin x y with hc | hc <;>
    simp [update_cell, hc] <;> split_ifs <;> first | rfl | omega

/-- Witness for C2 at a concrete board and coordinate. -/
theorem update_cell_B3S23_witness :
    update_cell [[1, 1, 0], [1, 0, 0], [0, 0, 0]] 0 0 =
      if idxCell [[1, 1, 0], [1, 0, 0], [0, 0, 0]] 0 0 = 1 then
        (if get_neighbors [[1, 1, 0], [1, 0, 0], [0, 0, 0]] 0 0 = 2 ∨
            get_neighbors [[1, 1, 0], [1, 0, 0], [0, 0, 0]] 0 0 = 3 then 1 else 0)
      else
        (if get_neighbors [[1, 1, 0], [1, 0, 0], [0, 0, 0]] 0 0 = 3 then 1 else 0) :=
  update_cell_B3S23 [[1, 1, 0], [1, 0, 0], [0, 0, 0]] 0 0
    (by decide) (by decide) (by decide) (by decide) (by decide)

/-! ### One tick is a simultaneous two-pass update (C1) -/

theorem set_getD_self {α : Type _} :
    ∀ (l : List α) (i : Nat) (d : α), i < l.length → l.set i (l.getD i d) = l
  | [], i, d, h => by simp at h
  | a :: l, 0, d, _ => by simp
  | a :: l, i + 1, d, h => by
    simp only [List.getD_cons_succ, List.set_cons_succ, List.cons.injEq, true_and]
    exact set_getD_self l i d (by simpa using h)

theorem getD_set_self {α : Type _} (l : List α) (i : Nat) (v d : α)
    (h : i < l.length) : (l.set i v).getD i d = v := by
  rw [List.getD_eq_getElem?_getD, List.getElem?_set_self h]
  rfl

/-- The inner loop of `tick`, which assigns along row `y`, only rewrites
row `y` of the temp board. -/
theorem foldl_setCell_eq_set (f : Nat → Cell) :
    ∀ (xs : List Nat) (t : Grid) (y : Nat), y < t.length →
      xs.foldl (fun t x => setCell t x y (f x)) t =
        t.set y (xs.foldl (fun r x => r.set x (f x)) (t.getD y [])) := by
  intro xs
  induction xs with
  | nil => intro t y hy; exact (set_getD_self t y [] hy).symm
  | cons x xs ih =>
    intro t y hy
    simp only [List.foldl_cons]
    have hy' : y < (setCell t x y (f x)).length := by
      simpa [setCell] using hy
    rw [ih (setCell t x y (f x)) y hy']
    have hget : (setCell t x y (f x)).getD y [] = (t.getD y []).set x (f x) := by
      simp only [setCell]
      exact getD_set_self t y _ [] hy
    rw [hget]
    simp only [setCell, List.set_set]

/-- Assigning `f x` at positions `0, …, n-1` of a row overwrites its first
`n` entries. -/
theorem foldl_set_range (f : Nat → Cell) :
    ∀ (n : Nat) (r : List Cell), n ≤ r.length →
      (List.range n).foldl (fun s x => s.set x (f x)) r =
        (List.range n).map f ++ r.drop n := by
  intro n
  induction n with
  | zero => intro r _; simp
  | succ n ih =>
    intro r hn
    have hn' : n < r.length := by omega
    rw [List.range_succ, List.foldl_append, ih r (by omega)]
    simp only [List.foldl_cons, List.foldl_nil, List.map_append, List.map_cons,
      List.map_nil]
    rw [List.set_append_right _ _ (by simp)]
    have hidx : n - (List.map f (List.range n)).length = 0 := by simp
    rw [hidx, List.drop_eq_getElem_cons hn', List.set_cons_zero]
    simp [List.append_assoc]

/-- After processing rows `0, …, n-1`, the temp board consists of the fully
recomputed first `n` rows followed by the untouched remaining rows of the
pre-tick grid. -/
theorem tickGrid_firstRows (g : Grid) (hrect : Rect g) :
    ∀ n, n ≤ height g →
      (List.range n).foldl
        (fun t y => (List.range (width g)).foldl
          (fun t x => setCell t x y (update_cell g (x : Int) (y : Int))) t) g =
      (List.range n).map (fun y : Nat =>
        (List.range (width g)).map (fun x : Nat => update_cell g (x : Int) (y : Int)))
        ++ g.drop n := by
  intro n
  induction n with
  | zero => simp
  | succ n ih =>
    intro hn
    have hng : n < g.length := hn
    rw [List.range_succ, List.foldl_append, ih (by omega)]
    simp only [List.foldl_cons, List.foldl_nil]
    set newRows := (List.range n).map (fun y : Nat =>
      (List.range (width g)).map (fun x : Nat => update_cell g (x : Int) (y : Int)))
      with hnewRows
    have hlenNew : newRows.length = n := by simp [hnewRows]
    have hlenT : (newRows ++ g.drop n).length = g.length := by
      simp [hlenNew]
      omega
    have hyT : n < (newRows ++ g.drop n).length := by omega
    rw [foldl_setCell_eq_set _ _ _ _ hyT]
    have hgetT : (newRows ++ g.drop n).getD n [] = g[n] := by
      rw [List.getD_eq_getElem?_getD, List.getElem?_append_right (by omega)]
      simp [hlenNew, List.getElem?_drop, List.getElem?_eq_getElem hng]
    have hrow : g[n].length = width g :=
      hrect _ (List.getElem_mem hng)
    rw [hgetT, foldl_set_range _ (width g) _ (by omega)]
    have hdrop : g[n].drop (width g) = [] := by
      rw [← hrow]
      exact List.drop_length _
    rw [hdrop, List.append_nil]
    rw [List.set_append_right _ _ (by omega), hlenNew, Nat.sub_self,
      List.drop_eq_getElem_cons hng, List.set_cons_zero]
    simp [List.map_append, List.range_succ, List.append_assoc]

/-- Modelled from the spec: the two-pass scheme that first computes the next
state of every cell from the frozen pre-tick grid and only then installs all
of them. -/
def twoPassTick (g : Grid) : Grid :=
  (List.range (height g)).map (fun y : Nat =>
    (List.range (width g)).map (fun x : Nat => update_cell g (x : Int) (y : Int)))

/-- Modelled from the spec: the incorrect naive in-place left-to-right,
top-to-bottom update, in which each cell update reads the partially mutated
grid instead of a frozen snapshot. -/
def naiveInPlaceTick (g : Grid) : Grid :=
  (List.range (height g)).foldl
    (fun t y => (List.range (width g)).foldl
      (fun t x => setCell t x y (update_cell t (x : Int) (y : Int))) t)
    g

/-- A horizontal blinker: a 3×3 dead grid whose middle row is alive. -/
def blinker : Grid := [[0, 0, 0], [1, 1, 1], [0, 0, 0]]

theorem tickGrid_eq_twoPassTick (g : Grid) (hrect : Rect g) :
    tickGrid g = twoPassTick g := by
  unfold tickGrid twoPassTick
  rw [tickGrid_firstRows g hrect (height g) (Nat.le_refl _)]
  simp [height]

/-- C1: on a rectangular binary board, one call to `tick` replaces the live
grid with exactly the two-pass recomputation of every cell from the frozen
pre-tick grid, while the history and initial snapshot are extended as a
pure side effect; moreover, on the horizontal blinker the naive in-place
left-to-right top-to-bottom update differs from what `tick` produces, so
the equality is not vacuous. -/
theorem tick_is_simultaneous_update (b : GameBoard)
    (hrect : Rect b.board) (hbin : BinaryGrid b.board) :
    (tick b).board = twoPassTick b.board ∧
      (tick { board := blinker, initial_board := blinker, history := [] }).board ≠
        naiveInPlaceTick blinker := by
  constructor
  · exact tickGrid_eq_twoPassTick b.board hrect
  · decide

/-- Witness for C1 on the blinker board. -/
theorem tick_is_simultaneous_update_witness :
    (tick { board := blinker, initial_board := blinker, history := [] }).board =
        twoPassTick blinker ∧
      (tick { board := blinker, initial_board := blinker, history := [] }).board ≠
        naiveInPlaceTick blinker :=
  tick_is_simultaneous_update
    { board := blinker, initial_board := blinker, history := [] }
    (by decide) (by decide)

/-! ### History and initial snapshot (C5, C8) -/

/-- The history after `k` ticks is the chronological list of the pre-tick
grids. -/
theorem tickN_history : ∀ (k : Nat) (b : GameBoard),
    (tickN k b).history =
      b.history ++ (List.range k).map (fun i => (tickN i b).board) := by
  intro k
  induction k with
  | zero => intro b; simp [tickN]
  | succ k ih =>
    intro b
    show (tickN k (tick b)).history = _
    rw [ih (tick b)]
    rw [List.range_succ_eq_map]
    simp only [tick, List.map_cons, List.map_map]
    rw [List.append_assoc]
    rfl

theorem tickN_initial_board : ∀ (k : Nat) (b : GameBoard),
    (tickN k b).initial_board = b.initial_board := by
  intro k
  induction k with
  | zero => intro b; rfl
  | succ k ih => intro b; exact ih (tick b)

/-- C5: on a freshly constructed board, after `k` ticks the history has
length exactly `k`, its first entry (when `k ≥ 1`) is the grid as constructed,
and its `i`-th entry is the live grid as it stood immediately before the
`i`-th tick, in chronological order. -/
theorem history_after_k_ticks (r : Nat → Nat → ℚ) (size0 size1 : Nat)
    (board? : Option Grid) (k : Nat) :
    (tickN k (mkGameBoard r size0 size1 board?)).history.length = k ∧
      (1 ≤ k →
        (tickN k (mkGameBoard r size0 size1 board?)).history.getD 0 [] =
          (mkGameBoard r size0 size1 board?).board) ∧
      (∀ i, i < k →
        (tickN k (mkGameBoard r size0 size1 board?)).history.getD i [] =
          (tickN i (mkGameBoard r size0 size1 board?)).board) := by
  have hh : (mkGameBoard r size0 size1 board?).history = [] := rfl
  rw [tickN_history k (mkGameBoard r size0 size1 board?), hh, List.nil_append]
  refine ⟨by simp, ?_, ?_⟩
  · intro hk
    have h0 : 0 < k := hk
    rw [List.getD_eq_getElem?_getD,
      List.getElem?_eq_getElem (by simpa using h0)]
    simp [tickN]
  · intro i hi
    rw [List.getD_eq_getElem?_getD,
      List.getElem?_eq_getElem (by simpa using hi)]
    simp

/-- Witness for C5 at a concrete one-cell board and `k = 2`. -/
theorem history_after_k_ticks_witness :
    (tickN 2 (mkGameBoard (fun _ _ => 1) 1 1 (some [[1]]))).history.length = 2 ∧
      (tickN 2 (mkGameBoard (fun _ _ => 1) 1 1 (some [[1]]))).history.getD 0 [] =
        (mkGameBoard (fun _ _ => 1) 1 1 (some [[1]])).board ∧
      (tickN 2 (mkGameBoard (fun _ _ => 1) 1 1 (some [[1]]))).history.getD 1 [] =
        (tickN 1 (mkGameBoard (fun _ _ => 1) 1 1 (some [[1]]))).board := by
  obtain ⟨h1, h2, h3⟩ :=
    history_after_k_ticks (fun _ _ => 1) 1 1 (some [[1]]) 2
  exact ⟨h1, h2 (by decide), h3 1 (by decide)⟩

/-- C8: no number of ticks ever changes what `get_initial_board` returns: it
always equals the live grid exactly as it was at construction time. -/
theorem get_initial_board_constant (r : Nat → Nat → ℚ) (size0 size1 : Nat)
    (board? : Option Grid) (k : Nat) :
    get_initial_board (tickN k (mkGameBoard r size0 size1 board?)) =
      (mkGameBoard r size0 size1 board?).board := by
  show (tickN k (mkGameBoard r size0 size1 board?)).initial_board = _
  rw [tickN_initial_board]
  rfl

/-! ### The cells stay in {0, 1} (C10) -/

theorem binary_set {r : List Cell} (h : ∀ c ∈ r, c = 0 ∨ c = 1)
    {v : Cell} (hv : v = 0 ∨ v = 1) (x : Nat) :
    ∀ c ∈ r.set x v, c = 0 ∨ c = 1 := by
  intro c hc
  rcases List.mem_or_eq_of_mem_set hc with hc' | hc'
  · exact h c hc'
  · rw [hc']; exact hv

theorem binary_setCell {t : Grid} (h : BinaryGrid t)
    {v : Cell} (hv : v = 0 ∨ v = 1) (x y : Nat) :
    BinaryGrid (setCell t x y v) := by
  intro row hrow
  rcases List.mem_or_eq_of_mem_set hrow with hrow' | hrow'
  · exact h row hrow'
  · rw [hrow']
    refine binary_set ?_ hv x
    by_cases hy : y < t.length
    · have : t.getD y [] = t[y] := by
        rw [List.getD_eq_getElem?_getD, List.getElem?_eq_getElem hy]; rfl
      rw [this]; exact h _ (List.getElem_mem hy)
    · rw [List.getD_eq_getElem?_getD, List.getElem?_eq_none (by omega)]
      intro c hc; simp at hc

/-- On a binary board `update_cell` only ever produces 0 or 1. -/
theorem binary_update_cell {g : Grid} (hbin : BinaryGrid g) (x y : Int) :
    update_cell g x y = 0 ∨ update_cell g x y = 1 := by
  rcases binary_idxCell hbin x y with hc | hc <;>
    simp [update_cell, hc] <;> omega

theorem binary_foldl_setCell (y : Nat)
    (f : Nat → Cell) (hf : ∀ x, f x = 0 ∨ f x = 1) :
    ∀ (xs : List Nat) (t : Grid), BinaryGrid t →
      BinaryGrid (xs.foldl (fun t x => setCell t x y (f x)) t) := by
  intro xs
  induction xs with
  | nil => intro t ht; exact ht
  | cons x xs ih =>
    intro t ht
    exact ih _ (binary_setCell ht (hf x) x y)

theorem binary_outer_fold {g : Grid} (hbin : BinaryGrid g) :
    ∀ (ys : List Nat) (t : Grid), BinaryGrid t →
      BinaryGrid (ys.foldl
        (fun t y => (List.range (width g)).foldl
          (fun t x => setCell t x y (update_cell g (x : Int) (y : Int))) t) t) := by
  intro ys
  induction ys with
  | nil => exact fun t ht => ht
  | cons y ys ih =>
    intro t ht
    exact ih _ (binary_foldl_setCell y _
      (fun x => binary_update_cell hbin (x : Int) (y : Int)) _ t ht)

/-- Every cell of a tick's output grid is 0 or 1 whenever the input grid is
binary. -/
theorem binary_tickGrid {g : Grid} (hbin : BinaryGrid g) :
    BinaryGrid (tickGrid g) :=
  binary_outer_fold hbin (List.range (height g)) g hbin

/-- C10: cells being 0 or 1 is an invariant: randomly generated boards are
binary, and a tick of a binary board produces a binary live grid. -/
theorem binary_invariant :
    (∀ (r : Nat → Nat → ℚ) (size0 size1 : Nat),
        BinaryGrid (make_random_board r size0 size1)) ∧
      (∀ b : GameBoard, BinaryGrid b.board → BinaryGrid (tick b).board) := by
  constructor
  · intro r size0 size1 row hrow c hc
    simp only [make_random_board, List.mem_map] at hrow
    obtain ⟨i, -, hrow⟩ := hrow
    rw [← hrow] at hc
    simp only [List.mem_map] at hc
    obtain ⟨j, -, hc⟩ := hc
    rw [← hc]
    split_ifs <;> simp
  · intro b hbin
    exact binary_tickGrid hbin

/-- Witness for C10 at a concrete binary board. -/
theorem binary_invariant_witness :
    BinaryGrid (make_random_board (fun _ _ => 1) 2 2) ∧
      BinaryGrid
        (tick { board := [[1, 0], [0, 1]], initial_board := [[1, 0], [0, 1]],
                history := [] }).board :=
  ⟨binary_invariant.1 (fun _ _ => 1) 2 2,
   binary_invariant.2 _ (by decide)⟩

/-! ### Requested size versus reported size (C6) and construction-time
validation (C7) -/

/-- C6 evaluation: constructing a board with `size = [2, 3]` and no supplied
grid yields `get_size() = [3, 2]`, not `[2, 3]`: `make_random_board` builds an
array of shape `(size[0], size[1])`, i.e. `size[0]` rows, while `get_size`
reports `[columns, rows]`, so the requested pair comes back transposed for
any non-square size. -/
theorem get_size_random_board_transposed (r : Nat → Nat → ℚ) :
    get_size (mkGameBoard r 2 3 none).board = [3, 2] ∧
      get_size (mkGameBoard r 2 3 none).board ≠ [2, 3] := by
  have h : get_size (mkGameBoard r 2 3 none).board = [3, 2] := by
    show get_size (make_random_board r 2 3) = [3, 2]
    unfold get_size width height make_random_board
    have h2 : List.range 2 = [0, 1] := rfl
    rw [h2]
    simp
  refine ⟨h, ?_⟩
  rw [h]
  decide

/-- Modelled from the spec: the condition under which the spec requires
construction to fail with `InvalidDimensions` — a non-positive requested
dimension, or a supplied grid whose row/column counts are inconsistent or do
not match the requested size. -/
def specInvalidDimensions (size0 size1 : Nat) (board? : Option Grid) : Prop :=
  size0 = 0 ∨ size1 = 0 ∨
    (∃ g, board? = some g ∧ (¬ Rect g ∨ get_size g ≠ [size0, size1]))

/-- C7 counterexample: a 2×3 grid supplied with requested size `[5, 5]`
satisfies the spec's rejection condition, yet the constructor succeeds and
installs the mismatched grid completely unchanged — there is no
`InvalidDimensions` failure, no truncation and no padding anywhere in
`__init__`. -/
theorem construction_accepts_mismatched_grid :
    specInvalidDimensions 5 5 (some [[0, 0, 0], [0, 0, 0]]) ∧
      (mkGameBoard (fun _ _ => 0) 5 5 (some [[0, 0, 0], [0, 0, 0]])).board =
        [[0, 0, 0], [0, 0, 0]] ∧
      get_size (mkGameBoard (fun _ _ => 0) 5 5
        (some [[0, 0, 0], [0, 0, 0]])).board = [3, 2] := by
  refine ⟨Or.inr (Or.inr ⟨[[0, 0, 0], [0, 0, 0]], rfl, Or.inr (by decide)⟩),
    rfl, by decide⟩

/-- C7 amended: the constructor performs no validation whatsoever — a
supplied grid is installed as-is with the requested size ignored, and a
requested zero dimension silently produces an empty random grid. -/
theorem mkGameBoard_no_validation (r : Nat → Nat → ℚ) (size0 size1 : Nat)
    (g : Grid) :
    (mkGameBoard r size0 size1 (some g)).board = g ∧
      (mkGameBoard r size0 size1 (some g)).initial_board = g ∧
      (mkGameBoard r size0 size1 (some g)).history = [] ∧
      (mkGameBoard r 0 size1 none).board = [] :=
  ⟨rfl, rfl, rfl, rfl⟩

/-! ### Board files: `read_board` and `save_board` (C9) -/

/-- A Python string, modelled as its list of characters. -/
abbrev PyStr := List Char

/-- The ASCII whitespace characters, as recognized by Python `str.split()`
on the characters occurring in board files. -/
def isSpaceChar (c : Char) : Bool :=
  c = ' ' || c = '\t' || c = '\n' || c = '\r'

/-- Accumulator pass behind `pyReadlines`; `acc` holds the reversed current
line. -/
def linesAux : PyStr → List Char → List PyStr
  | [], acc => if acc.isEmpty then [] else [acc.reverse]
  | c :: rest, acc =>
    if c = '\n' then acc.reverse :: linesAux rest []
    else linesAux rest (c :: acc)

/-- Python `file.readlines()` on the file contents: the text cut at
newlines, a trailing newline producing no extra empty line.  (Python keeps
the newline at each line's end; `split()` discards it as whitespace, so we
drop it here directly.) -/
def pyReadlines (s : PyStr) : List PyStr := linesAux s []

/-- Accumulator pass behind `pySplit`; `acc` holds the reversed current
token. -/
def splitAux : PyStr → List Char → List PyStr
  | [], acc => if acc.isEmpty then [] else [acc.reverse]
  | c :: rest, acc =>
    if isSpaceChar c then
      (if acc.isEmpty then splitAux rest [] else acc.reverse :: splitAux rest [])
    else splitAux rest (c :: acc)

/-- Python `line.split()` with no argument: the maximal runs of
non-whitespace characters, never producing empty tokens. -/
def pySplit (s : PyStr) : List PyStr := splitAux s []

/-- The value of a decimal digit character. -/
def digitVal? (c : Char) : Option Nat :=
  if '0' ≤ c ∧ c ≤ '9' then some (c.toNat - '0'.toNat) else none

def digitsValAux : PyStr → Nat → Option Nat
  | [], acc => some acc
  | c :: rest, acc =>
    match digitVal? c with
    | some d => digitsValAux rest (acc * 10 + d)
    | none => none

/-- Python `int(token)` on a whitespace-free token: an optional minus sign
followed by decimal digits; any other token raises, modelled as `none`. -/
def pyInt? (s : PyStr) : Option Int :=
  match s with
  | [] => none
  | '-' :: rest =>
    if rest.isEmpty then none
    else (digitsValAux rest 0).map (fun n => -(n : Int))
  | _ => (digitsValAux s 0).map (fun n => (n : Int))

/-- Python `str(int(v))` on a cell value: the decimal rendering of the
integer (the cells are integral, so `int` does not change the value). -/
def pyIntStr (n : Int) : PyStr :=
  if n < 0 then '-' :: Nat.toDigits 10 (-n).toNat
  else Nat.toDigits 10 n.toNat

/-- Converting every element, failing if any single conversion fails — the
behaviour of the conversion loop in `read_board`, where a bad token raises. -/
def traverseOption {α β : Type _} (f : α → Option β) : List α → Option (List β)
  | [] => some []
  | a :: l =>
    match f a, traverseOption f l with
    | some b, some bs => some (b :: bs)
    | _, _ => none

/-- `read_board`: reads the lines of the file, splits each line at
whitespace and converts every token with `int`, each line yielding one row
of the board. -/
def read_board (s : PyStr) : Option (List (List Int)) :=
  traverseOption (fun line => traverseOption pyInt? (pySplit line))
    (pyReadlines s)

/-- `save_board`: builds `board_txt` by appending, for every cell of every
row in order, the cell's decimal rendering followed by a space, and a
newline at the end of each row. -/
def save_board (g : Grid) : PyStr :=
  (List.range (height g)).foldl
    (fun acc y =>
      ((List.range (width g)).foldl
        (fun acc2 x => acc2 ++ pyIntStr (cellAt g x y) ++ [' ']) acc) ++ ['\n'])
    []

theorem linesAux_append_no_newline :
    ∀ (l : PyStr), (∀ c ∈ l, c ≠ '\n') → ∀ (s : PyStr) (acc : List Char),
      linesAux (l ++ s) acc = linesAux s (l.reverse ++ acc) := by
  intro l
  induction l with
  | nil => intro _ s acc; simp
  | cons c l ih =>
    intro h s acc
    have hc : ¬ c = '\n' := h c (by simp)
    simp only [List.cons_append, linesAux, if_neg hc, List.append_eq]
    rw [ih (fun d hd => h d (by simp [hd])) s (c :: acc)]
    simp

theorem linesAux_newline (s : PyStr) (acc : List Char) :
    linesAux ('\n' :: s) acc = acc.reverse :: linesAux s [] := by
  simp [linesAux]

/-- Lines without inner newlines, each terminated by a newline, are
recovered exactly by `pyReadlines`. -/
theorem pyReadlines_flatten :
    ∀ (ls : List PyStr), (∀ l ∈ ls, ∀ c ∈ l, c ≠ '\n') →
      pyReadlines ((ls.map (fun l => l ++ ['\n'])).flatten) = ls := by
  intro ls
  induction ls with
  | nil => intro _; rfl
  | cons l ls ih =>
    intro h
    unfold pyReadlines
    simp only [List.map_cons, List.flatten_cons, List.append_assoc,
      List.singleton_append]
    rw [linesAux_append_no_newline l (h l (by simp)) _ [],
      linesAux_newline]
    simp only [List.append_nil, List.reverse_reverse, List.cons.injEq, true_and]
    exact ih (fun l' hl' => h l' (by simp [hl']))

theorem splitAux_append_token :
    ∀ (t : PyStr), (∀ c ∈ t, isSpaceChar c = false) → ∀ (s : PyStr) (acc : List Char),
      splitAux (t ++ s) acc = splitAux s (t.reverse ++ acc) := by
  intro t
  induction t with
  | nil => intro _ s acc; simp
  | cons c t ih =>
    intro h s acc
    have hc : isSpaceChar c = false := h c (by simp)
    simp only [List.cons_append, splitAux, hc, List.append_eq,
      Bool.false_eq_true, if_false]
    rw [ih (fun d hd => h d (by simp [hd])) s (c :: acc)]
    simp

theorem splitAux_space (s : PyStr) (acc : List Char) :
    splitAux (' ' :: s) acc =
      if acc.isEmpty then splitAux s []
      else acc.reverse :: splitAux s [] := by
  simp [splitAux, isSpaceChar]

/-- Non-empty whitespace-free tokens, each followed by one space, are
recovered exactly by `pySplit`. -/
theorem pySplit_flatten_tokens :
    ∀ (ts : List PyStr),
      (∀ t ∈ ts, t ≠ [] ∧ ∀ c ∈ t, isSpaceChar c = false) →
      pySplit ((ts.map (fun t => t ++ [' '])).flatten) = ts := by
  intro ts
  induction ts with
  | nil => intro _; rfl
  | cons t ts ih =>
    intro h
    obtain ⟨hne, hns⟩ := h t (by simp)
    unfold pySplit
    simp only [List.map_cons, List.flatten_cons, List.append_assoc,
      List.singleton_append]
    rw [splitAux_append_token t hns _ [], splitAux_space]
    have : (t.reverse ++ []).isEmpty = false := by
      simp [List.isEmpty_iff, hne]
    rw [this]
    simp only [if_neg Bool.false_ne_true, List.append_nil,
      List.reverse_reverse, List.cons.injEq, true_and]
    exact ih (fun t' ht' => h t' (by simp [ht']))

/-- For the binary cells of a board file, rendering and re-parsing is the
identity, and the rendered token is a non-empty run of non-whitespace,
non-newline characters. -/
theorem pyIntStr_binary_token (c : Cell) (hc : c = 0 ∨ c = 1) :
    pyInt? (pyIntStr c) = some c ∧ pyIntStr c ≠ [] ∧
      (∀ ch ∈ pyIntStr c, isSpaceChar ch = false) ∧
      (∀ ch ∈ pyIntStr c, ch ≠ '\n') := by
  rcases hc with h | h <;> subst h <;> exact ⟨by decide, by decide, by decide, by decide⟩

theorem traverseOption_map_of {α β γ : Type _} (f : β → Option γ)
    (t : α → β) (v : α → γ) :
    ∀ (l : List α), (∀ x ∈ l, f (t x) = some (v x)) →
      traverseOption f (l.map t) = some (l.map v) := by
  intro l
  induction l with
  | nil => intro _; rfl
  | cons a l ih =>
    intro h
    simp only [List.map_cons, traverseOption, h a (by simp),
      ih (fun x hx => h x (by simp [hx]))]

theorem foldl_append_flatten {α : Type _} (f : α → PyStr) :
    ∀ (l : List α) (a : PyStr),
      l.foldl (fun acc x => acc ++ f x) a = a ++ (l.map f).flatten := by
  intro l
  induction l with
  | nil => intro a; simp
  | cons x l ih =>
    intro a
    simp only [List.foldl_cons, List.map_cons, List.flatten_cons, ih,
      List.append_assoc]

/-- `save_board` written as the concatenation of the rendered lines. -/
theorem save_board_eq_flatten (g : Grid) :
    save_board g =
      ((List.range (height g)).map (fun y : Nat =>
        ((List.range (width g)).map
          (fun x : Nat => pyIntStr (cellAt g x y) ++ [' '])).flatten
          ++ ['\n'])).flatten := by
  unfold save_board
  have hinner :
      (fun (acc : PyStr) (y : Nat) =>
        ((List.range (width g)).foldl
          (fun acc2 x => acc2 ++ pyIntStr (cellAt g x y) ++ [' ']) acc) ++ ['\n']) =
      (fun (acc : PyStr) (y : Nat) =>
        acc ++ (((List.range (width g)).map
          (fun x : Nat => pyIntStr (cellAt g x y) ++ [' '])).flatten ++ ['\n'])) := by
    funext acc y
    have hfun :
        (fun (acc2 : PyStr) (x : Nat) => acc2 ++ pyIntStr (cellAt g x y) ++ [' ']) =
        (fun (acc2 : PyStr) (x : Nat) => acc2 ++ (pyIntStr (cellAt g x y) ++ [' '])) := by
      funext acc2 x
      rw [List.append_assoc]
    rw [hfun, foldl_append_flatten (fun x : Nat => pyIntStr (cellAt g x y) ++ [' '])]
    rw [List.append_assoc]
  rw [hinner, foldl_append_flatten]
  simp

theorem map_range_getD {α : Type _} (d : α) (r : List α) :
    (List.range r.length).map (fun i => r.getD i d) = r := by
  refine List.ext_getElem (by simp) ?_
  intro i h1 h2
  simp only [List.getElem_map, List.getElem_range, List.getD_eq_getElem?_getD,
    List.getElem?_eq_getElem h2]
  rfl

theorem binary_cellAt {g : Grid} (hbin : BinaryGrid g) (x y : Nat) :
    cellAt g x y = 0 ∨ cellAt g x y = 1 := by
  have h := binary_idxCell hbin (x : Int) (y : Int)
  simpa [idxCell] using h

/-- C9: saving a rectangular binary grid with at least one row and one
column to the text format and reading the result back reproduces the grid
exactly — same rows, same columns, same cell at every coordinate. -/
theorem read_board_save_board_roundtrip (g : Grid) (hrect : Rect g)
    (hbin : BinaryGrid g) (_hh : 1 ≤ height g) (_hw : 1 ≤ width g) :
    read_board (save_board g) = some g := by
  have hline : ∀ y, y < height g →
      traverseOption pyInt? (pySplit
        (((List.range (width g)).map
          (fun x : Nat => pyIntStr (cellAt g x y) ++ [' '])).flatten)) =
        some (g.getD y []) := by
    intro y hy
    have hy2 : y < g.length := hy
    have hrow_get : g.getD y [] = g[y] := by
      rw [List.getD_eq_getElem?_getD, List.getElem?_eq_getElem hy2]
      rfl
    have hrow_mem : g.getD y [] ∈ g := by
      rw [hrow_get]; exact List.getElem_mem hy2
    have hrow_len : (g.getD y []).length = width g := hrect _ hrow_mem
    have htok : pySplit (((List.range (width g)).map
        (fun x : Nat => pyIntStr (cellAt g x y) ++ [' '])).flatten) =
        (List.range (width g)).map (fun x : Nat => pyIntStr (cellAt g x y)) := by
      have hcond : ∀ t ∈ (List.range (width g)).map
          (fun x : Nat => pyIntStr (cellAt g x y)),
          t ≠ [] ∧ ∀ c ∈ t, isSpaceChar c = false := by
        intro t ht
        simp only [List.mem_map, List.mem_range] at ht
        obtain ⟨x, -, hx⟩ := ht
        subst hx
        obtain ⟨-, h1, h2, -⟩ :=
          pyIntStr_binary_token _ (binary_cellAt hbin x y)
        exact ⟨h1, h2⟩
      have := pySplit_flatten_tokens
        ((List.range (width g)).map (fun x : Nat => pyIntStr (cellAt g x y)))
        hcond
      rwa [List.map_map] at this
    rw [htok]
    rw [traverseOption_map_of pyInt? (fun x : Nat => pyIntStr (cellAt g x y))
      (fun x : Nat => cellAt g x y) (List.range (width g))
      (fun x _ => (pyIntStr_binary_token _ (binary_cellAt hbin x y)).1)]
    congr 1
    have : (fun x : Nat => cellAt g x y) = fun x : Nat => (g.getD y []).getD x 0 := rfl
    rw [this, ← hrow_len, map_range_getD]
  rw [save_board_eq_flatten]
  unfold read_board
  have hmm : ((List.range (height g)).map (fun y : Nat =>
      (((List.range (width g)).map
        (fun x : Nat => pyIntStr (cellAt g x y) ++ [' '])).flatten) ++ ['\n'])) =
      (((List.range (height g)).map (fun y : Nat =>
        ((List.range (width g)).map
          (fun x : Nat => pyIntStr (cellAt g x y) ++ [' '])).flatten)).map
        (fun l => l ++ ['\n'])) := by
    rw [List.map_map]
    rfl
  rw [hmm, pyReadlines_flatten]
  · rw [traverseOption_map_of (fun line => traverseOption pyInt? (pySplit line))
      (fun y : Nat => ((List.range (width g)).map
        (fun x : Nat => pyIntStr (cellAt g x y) ++ [' '])).flatten)
      (fun y : Nat => g.getD y []) (List.range (height g))
      (fun y hy => hline y (by simpa using hy))]
    congr 1
    exact map_range_getD [] g
  · intro l hl
    simp only [List.mem_map, List.mem_range] at hl
    obtain ⟨y, -, hy⟩ := hl
    subst hy
    intro c hc
    simp only [List.mem_flatten, List.mem_map, List.mem_range] at hc
    obtain ⟨piece, ⟨x, -, hpiece⟩, hcp⟩ := hc
    subst hpiece
    rcases List.mem_append.mp hcp with hcl | hcr
    · exact (pyIntStr_binary_token _ (binary_cellAt hbin x y)).2.2.2 c hcl
    · simp only [List.mem_singleton] at hcr
      subst hcr
      decide

/-- Witness for C9 at a concrete 2×2 grid. -/
theorem read_board_save_board_roundtrip_witness :
    read_board (save_board [[1, 0], [0, 1]]) = some [[1, 0], [0, 1]] :=
  read_board_save_board_roundtrip [[1, 0], [0, 1]]
    (by decide) (by decide) (by decide) (by decide)
